import Mathlib

/-!
Shallow embedding of `src/packages/react-reconciler/src/work_loop.rs`
(the traversal engine, root scheduler and commit step of the
reconciler).  Fibers live in an arena: `Rc<RefCell<FiberNode>>`
pointers become `Nat` indices into a store, and every function that in
Rust takes `&self`/`&mut self` and mutates through `RefCell` is
embedded as an explicit state transformer on that store.  The diff
step (`begin_work`), aggregation step (`complete_work`), host commit
walk (`commit_mutation_effects`) and twin allocation
(`create_work_in_progress`) are external to the shown file and are
taken as function parameters, so every theorem below holds for all of
their behaviours.
-/

namespace Reconciler

/-- Modelled from the spec: `work_tags.rs` is not under src/.  The spec
(§3) lists the fiber kinds "root, host element, text, component". -/
inductive WorkTag where
  | FunctionComponent
  | HostRoot
  | HostComponent
  | HostText
deriving DecidableEq, Repr

/-- Modelled from the spec: `fiber.rs`'s `StateNode` is not under src/.
Per §3, `state_node` is "the underlying host instance, or — for the
root fiber — the root container handle".  The root container is an
index into the store's root list; a host instance is opaque. -/
inductive StateNode where
  | fiberRootNode (root : Nat)
  | element (instanceId : Nat)
deriving DecidableEq, Repr

/-- Modelled from the spec: `fiber.rs`'s `FiberNode` is not under src/.
Fields follow §3's data model: `tag`, effect bitsets `flags` and
`subtree_flags`, `state_node`, and the links `child`, `sibling`,
`_return`, `alternate` (all fiber indices). -/
structure FiberNode where
  tag : WorkTag
  child : Option Nat
  sibling : Option Nat
  _return : Option Nat
  alternate : Option Nat
  state_node : Option StateNode
  flags : Nat
  subtree_flags : Nat
deriving DecidableEq, Repr

/-- Modelled from the spec: `fiber.rs`'s `FiberRootNode` is not under
src/.  Per §3 it owns the `current` tree's root fiber, holds
`finished_work` and an opaque `container` handle. -/
structure FiberRootNode where
  current : Nat
  finished_work : Option Nat
  container : Nat
deriving DecidableEq, Repr

instance : Inhabited FiberNode :=
  ⟨{ tag := WorkTag.FunctionComponent, child := none, sibling := none,
     _return := none, alternate := none, state_node := none,
     flags := 0, subtree_flags := 0 }⟩

instance : Inhabited FiberRootNode :=
  ⟨{ current := 0, finished_work := none, container := 0 }⟩

/-- The heap of `Rc<RefCell<…>>` cells: fiber nodes and root
containers, addressed by index. -/
structure Store where
  fibers : List FiberNode
  roots : List FiberRootNode
deriving DecidableEq, Repr

/-- Dereference a fiber pointer (a valid `Rc` in Rust never dangles;
out-of-range indices read as the default node). -/
def fiberAt (s : Store) (i : Nat) : FiberNode :=
  s.fibers.getD i default

/-- Dereference a root-container pointer. -/
def rootAt (s : Store) (i : Nat) : FiberRootNode :=
  s.roots.getD i default

/-- `root.borrow_mut()` followed by a field write. -/
def updateRoot (s : Store) (i : Nat) (f : FiberRootNode → FiberRootNode) : Store :=
  { s with roots := s.roots.set i (f (rootAt s i)) }

/-- The upward `while parent.is_some()` loop of
`mark_update_lane_from_fiber_to_root` (work_loop.rs lines 46-61):
follow `_return` links to the topmost ancestor.  The store is threaded
through every iteration exactly as the borrows happen in the source;
`fuel` bounds the climb (the source loop would diverge on a cyclic
`_return` chain, which the model maps to `none`). -/
def go_up : Store → Nat → Nat → Store × Option Nat
  | s, 0, node =>
    match (fiberAt s node)._return with
    | none => (s, some node)
    | some _ => (s, none)
  | s, fuel + 1, node =>
    match (fiberAt s node)._return with
    | none => (s, some node)
    | some p => go_up s fuel p

/-- `WorkLoop::mark_update_lane_from_fiber_to_root` (work_loop.rs lines
42-74): climb to the topmost ancestor, then return the root container
exactly when that ancestor is `HostRoot`-tagged and its `state_node`
holds a `FiberRootNode`. -/
def mark_update_lane_from_fiber_to_root (s : Store) (fuel : Nat) (fiber : Nat) :
    Store × Option Nat :=
  match go_up s fuel fiber with
  | (s1, none) => (s1, none)
  | (s1, some t) =>
    if (fiberAt s1 t).tag = WorkTag.HostRoot then
      match (fiberAt s1 t).state_node with
      | some (StateNode.fiberRootNode root) => (s1, some root)
      | _ => (s1, none)
    else (s1, none)

/-- Modelled from the spec: `fiber_flags.rs` (the `Flags` bitset and
`get_mutation_mask`) is not under src/.  Per §4.6 and the glossary,
the mask is "the fixed set of flags relevant to host mutation
(Placement, Update, Deletion, ChildDeletion, …)"; bits chosen here:
Placement = 1, Update = 2, Deletion = 4, ChildDeletion = 8. -/
def get_mutation_mask : Nat := 1 ||| 2 ||| 4 ||| 8

/-- Modelled from the spec: the flag-membership test used by
`commit_root` (`get_mutation_mask().contains(flags)` in the source)
comes from `fiber_flags.rs`, which is not under src/.  §4.6 defines it
as a nonempty intersection with the mask:
`flags ∩ MUTATION_MASK ≠ ∅`. -/
def mask_test (mask flags : Nat) : Bool := mask &&& flags != 0

/-- `WorkLoop::commit_root` (work_loop.rs lines 104-129).  Returns the
updated store and whether `commit_mutation_effects` (the host mutation
walk, parameter `cme`) was invoked.  `cme` models
`CommitWork::commit_mutation_effects`, which receives only the
finished-work fiber and thus acts on the fiber arena. -/
def commit_root (cme : List FiberNode → Nat → List FiberNode)
    (s : Store) (rootId : Nat) : Store × Bool :=
  match (rootAt s rootId).finished_work with
  | none => (s, false)
  | some fw =>
    let s1 := updateRoot s rootId (fun r => { r with finished_work := none })
    let subtree_has_effect := mask_test get_mutation_mask (fiberAt s1 fw).subtree_flags
    let root_has_effect := mask_test get_mutation_mask (fiberAt s1 fw).flags
    if subtree_has_effect || root_has_effect then
      let s2 := { s1 with fibers := cme s1.fibers fw }
      (updateRoot s2 rootId (fun r => { r with current := fw }), true)
    else
      (updateRoot s1 rootId (fun r => { r with current := fw }), false)

/-- The `WorkLoop` struct's mutable state: the frontier pointer
`work_in_progress`, together with the heap it points into. -/
structure WorkLoopState where
  store : Store
  work_in_progress : Option Nat
deriving DecidableEq, Repr

/-- `WorkLoop::complete_unit_of_work` (work_loop.rs lines 163-193), the
completion loop.  `cw` is the aggregation step
(`CompleteWork::complete_work`, external to the shown file): it may
mutate the store and returns an optional redirection target.  `fuel`
bounds the upward climb.  The source's sibling branch assigns
`self.work_in_progress = next.clone()` where `next` is `None` at that
point; the embedding mirrors that assignment verbatim. -/
def complete_unit_of_work (cw : Store → Nat → Store × Option Nat) :
    Nat → WorkLoopState → Nat → WorkLoopState
  | 0, st, _ => st
  | fuel + 1, st, node =>
    match cw st.store node with
    | (s, next) =>
      if next.isSome then
        { store := s, work_in_progress := next }
      else if ((fiberAt s node).sibling).isSome then
        { store := s, work_in_progress := next }
      else
        match (fiberAt s node)._return with
        | none => { store := s, work_in_progress := none }
        | some p =>
          complete_unit_of_work cw fuel { store := s, work_in_progress := some p } p

/-- `WorkLoop::perform_unit_of_work` (work_loop.rs lines 149-161).
`bw` is the diff step (`begin_work`, external to the shown file): it
may mutate the store and returns the next node to descend into. -/
def perform_unit_of_work (bw cw : Store → Nat → Store × Option Nat)
    (fuel : Nat) (st : WorkLoopState) (fiber : Nat) : WorkLoopState :=
  match bw st.store fiber with
  | (s, next) =>
    if next.isNone then
      complete_unit_of_work cw fuel { st with store := s } fiber
    else
      { store := s, work_in_progress := next }

/-- `WorkLoop::work_loop` (work_loop.rs lines 139-147): `while
work_in_progress.is_some()`, run `perform_unit_of_work` on it.  `fuel`
bounds the number of iterations. -/
def work_loop (bw cw : Store → Nat → Store × Option Nat) :
    Nat → WorkLoopState → WorkLoopState
  | 0, st => st
  | fuel + 1, st =>
    match st.work_in_progress with
    | none => st
    | some f => work_loop bw cw fuel (perform_unit_of_work bw cw fuel st f)

/-- `WorkLoop::prepare_fresh_stack` (work_loop.rs lines 131-137): set
the frontier to a freshly created work-in-progress twin of
`root.current`.  `cwip` models `FiberNode::create_work_in_progress`
(defined in `fiber.rs`, external to the shown file): it may mutate the
store and returns the twin's index. -/
def prepare_fresh_stack (cwip : Store → Nat → Store × Nat)
    (st : WorkLoopState) (rootId : Nat) : WorkLoopState :=
  match cwip st.store (rootAt st.store rootId).current with
  | (s, twin) => { store := s, work_in_progress := some twin }

/-- `WorkLoop::perform_sync_work_on_root` (work_loop.rs lines 80-102):
prepare a fresh stack, run the work loop (the source's
`loop { work_loop(); break; }` runs it once), assign
`root.finished_work := root.current.alternate`, and commit. -/
def perform_sync_work_on_root (cwip : Store → Nat → Store × Nat)
    (bw cw : Store → Nat → Store × Option Nat)
    (cme : List FiberNode → Nat → List FiberNode)
    (fuel : Nat) (st : WorkLoopState) (rootId : Nat) : WorkLoopState × Bool :=
  let st2 := work_loop bw cw fuel (prepare_fresh_stack cwip st rootId)
  let finished := (fiberAt st2.store (rootAt st2.store rootId).current).alternate
  match commit_root cme
      (updateRoot st2.store rootId (fun r => { r with finished_work := finished }))
      rootId with
  | (s4, invoked) => ({ store := s4, work_in_progress := st2.work_in_progress }, invoked)

/-- `WorkLoop::ensure_root_is_scheduled` (work_loop.rs lines 76-78). -/
def ensure_root_is_scheduled (cwip : Store → Nat → Store × Nat)
    (bw cw : Store → Nat → Store × Option Nat)
    (cme : List FiberNode → Nat → List FiberNode)
    (fuel : Nat) (st : WorkLoopState) (rootId : Nat) : WorkLoopState × Bool :=
  perform_sync_work_on_root cwip bw cw cme fuel st rootId

/-- `WorkLoop::schedule_update_on_fiber` (work_loop.rs lines 29-40):
resolve the owning root; if none, return without doing anything,
otherwise run the synchronous pass.  The boolean records whether the
host mutation walk was invoked. -/
def schedule_update_on_fiber (cwip : Store → Nat → Store × Nat)
    (bw cw : Store → Nat → Store × Option Nat)
    (cme : List FiberNode → Nat → List FiberNode)
    (fuel : Nat) (st : WorkLoopState) (fiber : Nat) : WorkLoopState × Bool :=
  match mark_update_lane_from_fiber_to_root st.store fuel fiber with
  | (s1, none) => ({ st with store := s1 }, false)
  | (s1, some rootId) =>
    ensure_root_is_scheduled cwip bw cw cme fuel { st with store := s1 } rootId

/-- Whether the topmost `_return`-ancestor of `fiber` (within `fuel`
steps) is a `HostRoot`-tagged fiber whose `state_node` holds a root
container. -/
def resolves_to_root (s : Store) (fuel fiber : Nat) : Bool :=
  match (go_up s fuel fiber).2 with
  | none => false
  | some t =>
    (fiberAt s t).tag = WorkTag.HostRoot &&
      match (fiberAt s t).state_node with
      | some (StateNode.fiberRootNode _) => true
      | _ => false

theorem go_up_fst (fuel : Nat) : ∀ (s : Store) (node : Nat), (go_up s fuel node).1 = s := by
  induction fuel with
  | zero =>
    intro s node
    unfold go_up
    cases (fiberAt s node)._return <;> rfl
  | succ n ih =>
    intro s node
    unfold go_up
    cases (fiberAt s node)._return with
    | none => rfl
    | some p => exact ih s p

theorem mark_update_lane_fst (s : Store) (fuel fiber : Nat) :
    (mark_update_lane_from_fiber_to_root s fuel fiber).1 = s := by
  have hfst := go_up_fst fuel s fiber
  unfold mark_update_lane_from_fiber_to_root
  rcases hgo : go_up s fuel fiber with ⟨s1, top⟩
  rw [hgo] at hfst
  cases top with
  | none => simpa using hfst
  | some t =>
    simp only []
    split
    · split <;> simpa using hfst
    · simpa using hfst

theorem getD_set_self {α : Type} (l : List α) (i : Nat) (a d : α)
    (h : i < l.length) : (l.set i a).getD i d = a := by
  induction l generalizing i with
  | nil => simp at h
  | cons x xs ih =>
    cases i with
    | zero => simp
    | succ n =>
      simp only [List.set_cons_succ, List.getD_cons_succ]
      exact ih n (by simpa using h)

theorem rootAt_updateRoot_self (s : Store) (i : Nat)
    (f : FiberRootNode → FiberRootNode) (h : i < s.roots.length) :
    rootAt (updateRoot s i f) i = f (rootAt s i) := by
  unfold rootAt updateRoot
  exact getD_set_self _ _ _ _ h

theorem fiberAt_updateRoot (s : Store) (i : Nat)
    (f : FiberRootNode → FiberRootNode) (j : Nat) :
    fiberAt (updateRoot s i f) j = fiberAt s j := rfl

/-- Valid root indices: the default out-of-range root has no finished
work, so a root holding finished work is in range. -/
theorem lt_roots_length_of_finished_work (s : Store) (rootId fw : Nat)
    (h : (rootAt s rootId).finished_work = some fw) : rootId < s.roots.length := by
  by_contra hge
  have : rootAt s rootId = default := by
    unfold rootAt
    exact List.getD_eq_default _ _ (by omega)
  rw [this] at h
  simp [default] at h

/-- C10: `mark_update_lane_from_fiber_to_root` is read-only: threaded
through every borrow of the walk, the store comes out exactly as it
went in — no fiber field and no root-container field is mutated, so
resolving a root for scheduling leaves both trees unchanged. -/
theorem mark_update_lane_readonly (s : Store) (fuel fiber : Nat) :
    (mark_update_lane_from_fiber_to_root s fuel fiber).1 = s :=
  mark_update_lane_fst s fuel fiber

theorem mark_update_lane_none_of_unresolved (s : Store) (fuel fiber : Nat)
    (h : resolves_to_root s fuel fiber = false) :
    (mark_update_lane_from_fiber_to_root s fuel fiber).2 = none := by
  have hfst := go_up_fst fuel s fiber
  unfold resolves_to_root at h
  unfold mark_update_lane_from_fiber_to_root
  rcases hgo : go_up s fuel fiber with ⟨s1, top⟩
  rw [hgo] at h hfst
  simp only [Prod.fst] at hfst
  rw [hfst] at h ⊢
  cases top with
  | none => rfl
  | some t =>
    dsimp only at h ⊢
    by_cases htag : (fiberAt s t).tag = WorkTag.HostRoot
    · rw [if_pos htag]
      cases hsn : (fiberAt s t).state_node with
      | none => rfl
      | some sn =>
        cases sn with
        | fiberRootNode root =>
          rw [hsn] at h
          simp [htag] at h
        | element i => rfl
    · rw [if_neg htag]

/-- C6: `mark_update_lane_from_fiber_to_root` follows `_return` links
to the topmost ancestor (the fiber itself when `_return` is unset),
returns the root container exactly when that ancestor is
`HostRoot`-tagged with a `FiberRootNode` in its `state_node`, and when
it returns a root, `schedule_update_on_fiber` triggers the synchronous
pass on that root. -/
theorem mark_update_lane_resolves_root (cwip : Store → Nat → Store × Nat)
    (bw cw : Store → Nat → Store × Option Nat)
    (cme : List FiberNode → Nat → List FiberNode)
    (fuel : Nat) (st : WorkLoopState) (fiber : Nat) :
    ((fiberAt st.store fiber)._return = none →
        (go_up st.store fuel fiber).2 = some fiber) ∧
    (∀ p, (fiberAt st.store fiber)._return = some p →
        go_up st.store (fuel + 1) fiber = go_up st.store fuel p) ∧
    (∀ r, (mark_update_lane_from_fiber_to_root st.store fuel fiber).2 = some r ↔
        ∃ t, (go_up st.store fuel fiber).2 = some t ∧
          (fiberAt st.store t).tag = WorkTag.HostRoot ∧
          (fiberAt st.store t).state_node = some (StateNode.fiberRootNode r)) ∧
    (∀ r, (mark_update_lane_from_fiber_to_root st.store fuel fiber).2 = some r →
        schedule_update_on_fiber cwip bw cw cme fuel st fiber =
          perform_sync_work_on_root cwip bw cw cme fuel st r) := by
  have hfst := go_up_fst fuel st.store fiber
  refine ⟨?_, ?_, ?_, ?_⟩
  · intro h
    cases fuel with
    | zero => unfold go_up; rw [h]
    | succ n => unfold go_up; rw [h]
  · intro p h
    conv_lhs => rw [go_up]
    rw [h]
  · intro r
    constructor
    · intro h
      unfold mark_update_lane_from_fiber_to_root at h
      rcases hgo : go_up st.store fuel fiber with ⟨s1, top⟩
      rw [hgo] at h hfst
      simp only [Prod.fst] at hfst
      subst hfst
      cases top with
      | none => simp at h
      | some t =>
        dsimp only at h
        by_cases htag : (fiberAt st.store t).tag = WorkTag.HostRoot
        · rw [if_pos htag] at h
          cases hsn : (fiberAt st.store t).state_node with
          | none => rw [hsn] at h; simp at h
          | some sn =>
            cases sn with
            | fiberRootNode root =>
              rw [hsn] at h
              simp only [Prod.snd, Option.some.injEq] at h
              subst h
              exact ⟨t, rfl, htag, hsn⟩
            | element i => rw [hsn] at h; simp at h
        · rw [if_neg htag] at h; simp at h
    · rintro ⟨t, hgo2, htag, hsn⟩
      unfold mark_update_lane_from_fiber_to_root
      rcases hgo : go_up st.store fuel fiber with ⟨s1, top⟩
      rw [hgo] at hgo2 hfst
      simp only [Prod.fst] at hfst
      subst hfst
      simp only [Prod.snd] at hgo2
      subst hgo2
      dsimp only
      rw [if_pos htag, hsn]
  · intro r h
    have hmfst := mark_update_lane_fst st.store fuel fiber
    unfold schedule_update_on_fiber
    rcases hm : mark_update_lane_from_fiber_to_root st.store fuel fiber with ⟨s1, res⟩
    rw [hm] at h hmfst
    simp only [Prod.fst] at hmfst
    subst hmfst
    simp only [Prod.snd] at h
    subst h
    rfl

/-- C5: scheduling an update on a fiber whose topmost `_return`
ancestor is not a `HostRoot`-tagged fiber holding a root container is
a silent no-op: no pass is started, the host mutation walk is never
invoked (the boolean is `false`), and the whole state — every fiber of
the current and work-in-progress trees and every root container — is
returned unchanged. -/
theorem schedule_update_on_fiber_detached_noop (cwip : Store → Nat → Store × Nat)
    (bw cw : Store → Nat → Store × Option Nat)
    (cme : List FiberNode → Nat → List FiberNode)
    (fuel : Nat) (st : WorkLoopState) (fiber : Nat)
    (h : resolves_to_root st.store fuel fiber = false) :
    schedule_update_on_fiber cwip bw cw cme fuel st fiber = (st, false) := by
  have hnone := mark_update_lane_none_of_unresolved st.store fuel fiber h
  have hmfst := mark_update_lane_fst st.store fuel fiber
  unfold schedule_update_on_fiber
  rcases hm : mark_update_lane_from_fiber_to_root st.store fuel fiber with ⟨s1, res⟩
  rw [hm] at hnone hmfst
  simp only [Prod.fst] at hmfst
  simp only [Prod.snd] at hnone
  subst hnone
  subst hmfst
  rfl

theorem mask_test_eq_true (m f : Nat) : mask_test m f = true ↔ m &&& f ≠ 0 := by
  simp [mask_test, bne_iff_ne]

theorem fiberAt_setFibers (s : Store) (l : List FiberNode) (i : Nat) :
    fiberAt { s with fibers := l } i = l.getD i default := rfl

theorem rootAt_setFibers (s : Store) (l : List FiberNode) (i : Nat) :
    rootAt { s with fibers := l } i = rootAt s i := rfl

theorem roots_length_updateRoot (s : Store) (i : Nat) (f : FiberRootNode → FiberRootNode) :
    (updateRoot s i f).roots.length = s.roots.length := by
  simp [updateRoot]

theorem commit_root_of_none (cme : List FiberNode → Nat → List FiberNode)
    (s : Store) (rootId : Nat) (h : (rootAt s rootId).finished_work = none) :
    commit_root cme s rootId = (s, false) := by
  unfold commit_root
  rw [h]

theorem commit_root_clears (cme : List FiberNode → Nat → List FiberNode)
    (s : Store) (rootId fw : Nat) (h : (rootAt s rootId).finished_work = some fw) :
    (rootAt (commit_root cme s rootId).1 rootId).finished_work = none := by
  have hlen := lt_roots_length_of_finished_work s rootId fw h
  unfold commit_root
  rw [h]
  dsimp only
  split
  · rw [rootAt_updateRoot_self _ _ _
      (by simpa [roots_length_updateRoot] using hlen)]
    dsimp only
    rw [rootAt_setFibers, rootAt_updateRoot_self _ _ _ hlen]
  · rw [rootAt_updateRoot_self _ _ _
      (by simpa [roots_length_updateRoot] using hlen)]
    dsimp only
    rw [rootAt_updateRoot_self _ _ _ hlen]

/-- C3: `commit_root` is a no-op when `root.finished_work` is unset;
when it is set, the call takes and clears it, so a second call without
an intervening pass changes nothing and never reaches the host
mutation walk. -/
theorem commit_root_single_consumption (cme : List FiberNode → Nat → List FiberNode)
    (s : Store) (rootId : Nat) :
    ((rootAt s rootId).finished_work = none → commit_root cme s rootId = (s, false)) ∧
    (∀ fw, (rootAt s rootId).finished_work = some fw →
        (rootAt (commit_root cme s rootId).1 rootId).finished_work = none) ∧
    (commit_root cme (commit_root cme s rootId).1 rootId =
        ((commit_root cme s rootId).1, false)) := by
  refine ⟨commit_root_of_none cme s rootId, fun fw h => commit_root_clears cme s rootId fw h, ?_⟩
  cases hfin : (rootAt s rootId).finished_work with
  | none =>
    rw [commit_root_of_none cme s rootId hfin]
    exact commit_root_of_none cme s rootId hfin
  | some fw =>
    exact commit_root_of_none cme _ rootId (commit_root_clears cme s rootId fw hfin)

/-- C2: with `finished_work` set, `commit_root` invokes the host
mutation walk exactly when the mutation mask meets the finished
tree's `subtree_flags` or its own `flags` — a single
mutation-relevant bit anywhere suffices. -/
theorem commit_root_effect_iff (cme : List FiberNode → Nat → List FiberNode)
    (s : Store) (rootId fw : Nat) (h : (rootAt s rootId).finished_work = some fw) :
    ((commit_root cme s rootId).2 = true ↔
      get_mutation_mask &&& (fiberAt s fw).subtree_flags ≠ 0 ∨
        get_mutation_mask &&& (fiberAt s fw).flags ≠ 0) := by
  unfold commit_root
  rw [h]
  dsimp only
  simp only [fiberAt_updateRoot]
  split
  next hcond =>
    simp only [Prod.snd, true_iff]
    exact (Bool.or_eq_true _ _).mp hcond |>.imp
      (mask_test_eq_true _ _).mp (mask_test_eq_true _ _).mp
  next hcond =>
    refine ⟨fun hft => absurd hft (by simp), fun hdis => absurd ?_ hcond⟩
    exact (Bool.or_eq_true _ _).mpr
      (hdis.imp (mask_test_eq_true _ _).mpr (mask_test_eq_true _ _).mpr)

/-- C4: with `finished_work` set, `commit_root` reassigns
`root.current` to the finished tree in both the effectful and the
no-effect branch. -/
theorem commit_root_publishes_current (cme : List FiberNode → Nat → List FiberNode)
    (s : Store) (rootId fw : Nat) (h : (rootAt s rootId).finished_work = some fw) :
    (rootAt (commit_root cme s rootId).1 rootId).current = fw := by
  have hlen := lt_roots_length_of_finished_work s rootId fw h
  unfold commit_root
  rw [h]
  dsimp only
  split
  · rw [rootAt_updateRoot_self _ _ _
      (by simpa [roots_length_updateRoot] using hlen)]
  · rw [rootAt_updateRoot_self _ _ _
      (by simpa [roots_length_updateRoot] using hlen)]

/-- C8: each work-loop iteration runs the diff step (`begin_work`) on
the frontier node; when the diff step yields a next node the frontier
becomes that node (descent), and when it yields none the completion
loop is entered on that same node. -/
theorem perform_unit_of_work_diff_step (bw cw : Store → Nat → Store × Option Nat)
    (fuel : Nat) (st : WorkLoopState) (f : Nat) :
    (st.work_in_progress = some f →
        work_loop bw cw (fuel + 1) st =
          work_loop bw cw fuel (perform_unit_of_work bw cw fuel st f)) ∧
    (∀ s n, bw st.store f = (s, some n) →
        perform_unit_of_work bw cw fuel st f =
          { store := s, work_in_progress := some n }) ∧
    (∀ s, bw st.store f = (s, none) →
        perform_unit_of_work bw cw fuel st f =
          complete_unit_of_work cw fuel { st with store := s } f) := by
  refine ⟨?_, ?_, ?_⟩
  · intro h
    conv_lhs => rw [work_loop]
    rw [h]
  · intro s n h
    unfold perform_unit_of_work
    rw [h]
    rfl
  · intro s h
    unfold perform_unit_of_work
    rw [h]
    rfl

/-- C9: completion-loop rules: a redirection target returned by the
aggregation step becomes the frontier; with no redirection and no
sibling the loop moves to the node's parent via `_return` and
aggregates it next; with no parent the pass ends with the frontier
empty. -/
theorem complete_unit_of_work_ascent_rules (cw : Store → Nat → Store × Option Nat)
    (fuel : Nat) (st : WorkLoopState) (node : Nat) :
    (∀ s t, cw st.store node = (s, some t) →
        complete_unit_of_work cw (fuel + 1) st node =
          { store := s, work_in_progress := some t }) ∧
    (∀ s, cw st.store node = (s, none) → (fiberAt s node).sibling = none →
        (fiberAt s node)._return = none →
        complete_unit_of_work cw (fuel + 1) st node =
          { store := s, work_in_progress := none }) ∧
    (∀ s p, cw st.store node = (s, none) → (fiberAt s node).sibling = none →
        (fiberAt s node)._return = some p →
        complete_unit_of_work cw (fuel + 1) st node =
          complete_unit_of_work cw fuel { store := s, work_in_progress := some p } p) := by
  refine ⟨?_, ?_, ?_⟩
  · intro s t h
    conv_lhs => rw [complete_unit_of_work]
    rw [h]
    rfl
  · intro s h hsib hret
    conv_lhs => rw [complete_unit_of_work]
    rw [h]
    simp [hsib, hret]
  · intro s p h hsib hret
    conv_lhs => rw [complete_unit_of_work]
    rw [h]
    simp [hsib, hret]

/-- Aggregation step that mutates nothing and never returns a
redirection target: the ordinary case per §4.4. -/
def cw_noop : Store → Nat → Store × Option Nat := fun s _ => (s, none)

/-- A store holding one root whose root fiber 0 has two children:
fiber 1 (with unvisited sibling 2) and fiber 2. -/
def twoChildStore : Store :=
  { fibers :=
      [{ tag := WorkTag.HostRoot, child := some 1, sibling := none,
         _return := none, alternate := none,
         state_node := some (StateNode.fiberRootNode 0), flags := 0, subtree_flags := 0 },
       { tag := WorkTag.HostComponent, child := none, sibling := some 2,
         _return := some 0, alternate := none, state_node := none,
         flags := 0, subtree_flags := 0 },
       { tag := WorkTag.HostComponent, child := none, sibling := none,
         _return := some 0, alternate := none, state_node := none,
         flags := 0, subtree_flags := 0 }],
    roots := [{ current := 0, finished_work := none, container := 0 }] }

/-- C1 (code bug): completing fiber 1 — whose aggregation step returns
no redirection target and whose sibling 2 is unvisited — leaves the
frontier empty (`work_in_progress = none`, the source's
`self.work_in_progress = next.clone()` with `next` known to be `None`)
instead of advancing it to sibling 2, so the pass terminates
prematurely and fiber 2 is never diffed. -/
theorem complete_unit_of_work_drops_sibling :
    (fiberAt twoChildStore 1).sibling = some 2 ∧
    cw_noop twoChildStore 1 = (twoChildStore, none) ∧
    (complete_unit_of_work cw_noop 5
        { store := twoChildStore, work_in_progress := some 1 } 1).work_in_progress
      = none := by
  refine ⟨rfl, rfl, rfl⟩

/-- C7: `perform_sync_work_on_root` is the sequence: set the frontier
to a freshly created work-in-progress twin of `root.current`, run the
work loop (which only stops on an empty frontier), assign
`root.finished_work := root.current.alternate`, and invoke
`commit_root` on the same root, all in one synchronous call. -/
theorem perform_sync_work_on_root_sequence (cwip : Store → Nat → Store × Nat)
    (bw cw : Store → Nat → Store × Option Nat)
    (cme : List FiberNode → Nat → List FiberNode)
    (fuel : Nat) (st : WorkLoopState) (rootId : Nat) :
    (∀ s twin, cwip st.store (rootAt st.store rootId).current = (s, twin) →
        prepare_fresh_stack cwip st rootId =
          { store := s, work_in_progress := some twin }) ∧
    (∀ st' : WorkLoopState, st'.work_in_progress = none →
        work_loop bw cw fuel st' = st') ∧
    (perform_sync_work_on_root cwip bw cw cme fuel st rootId =
        (let st2 := work_loop bw cw fuel (prepare_fresh_stack cwip st rootId)
         let s3 := updateRoot st2.store rootId (fun r =>
           { r with finished_work :=
               (fiberAt st2.store (rootAt st2.store rootId).current).alternate })
         ({ store := (commit_root cme s3 rootId).1,
            work_in_progress := st2.work_in_progress },
          (commit_root cme s3 rootId).2))) := by
  refine ⟨?_, ?_, ?_⟩
  · intro s twin h
    unfold prepare_fresh_stack
    rw [h]
  · intro st' h
    cases fuel with
    | zero => rfl
    | succ n =>
      conv_lhs => rw [work_loop]
      rw [h]
  · unfold perform_sync_work_on_root
    dsimp only

/-- Host mutation walk that leaves the fiber arena unchanged. -/
def cme_id : List FiberNode → Nat → List FiberNode := fun l _ => l

/-- Twin allocation that reuses the current fiber's index. -/
def cwip0 : Store → Nat → Store × Nat := fun s i => (s, i)

/-- Diff step that descends into the node's first child. -/
def bw_child : Store → Nat → Store × Option Nat := fun s i => (s, (fiberAt s i).child)

/-- A store with one mounted root: fiber 0 is the `HostRoot` fiber
(current), fiber 1 its host child, fiber 2 the root twin awaiting
commit with an `Update` bit in its `subtree_flags`. -/
def sampleRootStore : Store :=
  { fibers :=
      [{ tag := WorkTag.HostRoot, child := some 1, sibling := none,
         _return := none, alternate := some 2,
         state_node := some (StateNode.fiberRootNode 0), flags := 0, subtree_flags := 0 },
       { tag := WorkTag.HostComponent, child := none, sibling := none,
         _return := some 0, alternate := none,
         state_node := some (StateNode.element 5), flags := 2, subtree_flags := 0 },
       { tag := WorkTag.HostRoot, child := some 1, sibling := none,
         _return := none, alternate := some 0,
         state_node := some (StateNode.fiberRootNode 0), flags := 0, subtree_flags := 2 }],
    roots := [{ current := 0, finished_work := some 2, container := 9 }] }

/-- A store holding a single detached component fiber and no root. -/
def detachedStore : Store :=
  { fibers :=
      [{ tag := WorkTag.FunctionComponent, child := none, sibling := none,
         _return := none, alternate := none, state_node := none,
         flags := 0, subtree_flags := 0 }],
    roots := [] }

theorem commit_root_effect_iff_witness :
    (commit_root cme_id sampleRootStore 0).2 = true :=
  (commit_root_effect_iff cme_id sampleRootStore 0 2 rfl).mpr (Or.inl (by decide))

theorem commit_root_single_consumption_witness :
    (rootAt (commit_root cme_id sampleRootStore 0).1 0).finished_work = none :=
  (commit_root_single_consumption cme_id sampleRootStore 0).2.1 2 rfl

theorem commit_root_publishes_current_witness :
    (rootAt (commit_root cme_id sampleRootStore 0).1 0).current = 2 :=
  commit_root_publishes_current cme_id sampleRootStore 0 2 rfl

theorem schedule_update_on_fiber_detached_noop_witness :
    schedule_update_on_fiber cwip0 cw_noop cw_noop cme_id 3
        { store := detachedStore, work_in_progress := none } 0 =
      ({ store := detachedStore, work_in_progress := none }, false) :=
  schedule_update_on_fiber_detached_noop cwip0 cw_noop cw_noop cme_id 3
    { store := detachedStore, work_in_progress := none } 0 (by decide)

theorem mark_update_lane_resolves_root_witness :
    schedule_update_on_fiber cwip0 cw_noop cw_noop cme_id 3
        { store := sampleRootStore, work_in_progress := none } 1 =
      perform_sync_work_on_root cwip0 cw_noop cw_noop cme_id 3
        { store := sampleRootStore, work_in_progress := none } 0 :=
  (mark_update_lane_resolves_root cwip0 cw_noop cw_noop cme_id 3
      { store := sampleRootStore, work_in_progress := none } 1).2.2.2 0 (by decide)

theorem perform_sync_work_on_root_sequence_witness :
    prepare_fresh_stack cwip0 { store := sampleRootStore, work_in_progress := none } 0 =
      { store := sampleRootStore, work_in_progress := some 0 } :=
  (perform_sync_work_on_root_sequence cwip0 cw_noop cw_noop cme_id 3
      { store := sampleRootStore, work_in_progress := none } 0).1 sampleRootStore 0 rfl

theorem perform_unit_of_work_diff_step_witness :
    perform_unit_of_work bw_child cw_noop 3
        { store := twoChildStore, work_in_progress := some 0 } 0 =
      { store := twoChildStore, work_in_progress := some 1 } :=
  (perform_unit_of_work_diff_step bw_child cw_noop 3
      { store := twoChildStore, work_in_progress := some 0 } 0).2.1 twoChildStore 1 rfl

theorem complete_unit_of_work_ascent_rules_witness :
    complete_unit_of_work cw_noop 4
        { store := twoChildStore, work_in_progress := some 2 } 2 =
      complete_unit_of_work cw_noop 3
        { store := twoChildStore, work_in_progress := some 0 } 0 :=
  (complete_unit_of_work_ascent_rules cw_noop 3
      { store := twoChildStore, work_in_progress := some 2 } 2).2.2 twoChildStore 0
    rfl rfl rfl

end Reconciler
